import Mathlib

/-!
# The native launcher `launcher.cc`, as built with `JVM` defined

A shallow embedding of `sdk/src/org.graalvm.launcher.native/src/launcher.cc`.

* A C string is the list of its characters before the terminating NUL.
* A heap block is a list of bytes of fixed length, a byte being a character or
  NUL.  `malloc` does not initialise a block: its first contents are a parameter
  (`uninit`).  `strcpy` and `strcat` write inside the block or fail (`none`).
  A failure in the block of an option is recorded in the slot of that option
  (`Slot.overrun`: what the Java VM reads there is undefined) and the run goes
  on, the later blocks being allocated apart; a failure in the classpath block
  or in the library-path block, and a store outside a pointer array, make the
  call undefined.
* Pointer arrays (`vm_args->options`, `user_cp_entries`, the `jobjectArray`) are
  lists of slots; a slot that was never assigned is `Slot.unassigned`, or
  `none`.
* The operating system and the Java VM are oracles gathered in `World`; `main`
  returns the sequence of its foreign calls and writes, and its exit status.
* The macros given on the compiler command line are the fields of `Config`.
* `int` quantities are unbounded: they are sums of lengths of arguments and
  build constants, far below `2^31`.
-/

namespace Launcher

/-! ## Strings and heap blocks -/

/-- The characters of a C string, the terminating NUL left out. -/
abbrev CStr := List Char

/-- One byte of a heap block; `none` is the NUL byte. -/
abbrev Byte := Option Char

/-- A block returned by `malloc`: as many bytes as were asked for. -/
abbrev Block := List Byte

/-- A string literal of the source. -/
def lit (s : String) : CStr := s.toList

/-- The operator `sizeof` on a character array: its characters and the NUL. -/
def sizeof (s : CStr) : Nat := s.length + 1

/-- The function `strlen` on a C string. -/
def strlen (s : CStr) : Nat := s.length

/-- The test `strncmp(s, t, n) == 0`. -/
def strncmp_eq (s t : CStr) (n : Nat) : Bool := s.take n == t.take n

/-- The call `malloc(size)`: a block whose contents are whatever the heap held. -/
def malloc (uninit : Nat → Byte) (size : Nat) : Block := (List.range size).map uninit

/-- The bytes `strcpy` and `strcat` copy: the characters, then the NUL. -/
def terminated (s : CStr) : List Byte := s.map some ++ [none]

/-- The offset of the first NUL of a block; `none` when the block holds no NUL. -/
def Block.strlen : Block → Option Nat
  | [] => none
  | none :: _ => some 0
  | some _ :: bs => (Block.strlen bs).map (· + 1)

/-- The C string that starts a block; `none` when the block holds no NUL. -/
def Block.cstr : Block → Option CStr
  | [] => none
  | none :: _ => some []
  | some c :: bs => (Block.cstr bs).map (c :: ·)

/-- Writing bytes at an offset; `none` when the write leaves the block. -/
def Block.write (b : Block) (off : Nat) (bytes : List Byte) : Option Block :=
  if off + bytes.length ≤ b.length then
    some (b.take off ++ bytes ++ b.drop (off + bytes.length))
  else none

/-- The call `strcpy(dst, src)`. -/
def strcpy (dst : Block) (src : CStr) : Option Block := dst.write 0 (terminated src)

/-- The call `strcat(dst, src)`: `src` is copied over the first NUL of `dst`. -/
def strcat (dst : Block) (src : CStr) : Option Block :=
  match dst.strlen with
  | none => none
  | some n => dst.write n (terminated src)

/-- Assigning slot `i` of a pointer array; `none` when `i` is outside it. -/
def store {α : Type} (arr : List α) (i : Nat) (v : α) : Option (List α) :=
  if i < arr.length then some (arr.set i v) else none

/-- Reading every slot of a pointer array; `none` when one was never assigned. -/
def read_slots : List (Option CStr) → Option (List CStr)
  | [] => some []
  | none :: _ => none
  | some s :: rest => (read_slots rest).map (s :: ·)

/-! ## Build-time configuration and the macros -/

/-- The macros the build passes to the compiler. -/
structure Config where
  /-- The macro `LAUNCHER_CLASS`, stringified. -/
  LAUNCHER_CLASS_STR : CStr
  /-- The macro `LAUNCHER_CLASSPATH`: the initialiser of `launcher_cp_entries`. -/
  LAUNCHER_CLASSPATH : List CStr
  /-- The macro `LIBLANG_RELPATH`, stringified. -/
  LIBLANG_RELPATH_STR : CStr
  /-- The macro `DIR_SEP`, stringified. -/
  DIR_SEP_STR : CStr
  /-- The macro `CP_SEP`, stringified. -/
  CP_SEP_STR : CStr

/-- The macro `IS_VM_ARG`. -/
def IS_VM_ARG (arg : CStr) : Bool := strncmp_eq arg (lit "--vm.") 5

/-- The macro `IS_VM_CP_ARG`. -/
def IS_VM_CP_ARG (arg : CStr) : Bool := strncmp_eq arg (lit "--vm.cp=") 8

/-- The macro `IS_VM_CLASSPATH_ARG`. -/
def IS_VM_CLASSPATH_ARG (arg : CStr) : Bool := strncmp_eq arg (lit "--vm.classpath=") 15

/-! ## `loadliblang`: the path of the library -/

/-- The string `liblang_path` that `loadliblang` builds in its hand-sized block. -/
def liblang_path (cfg : Config) (uninit : Nat → Byte) (exe_dir : CStr) : Option CStr :=
  let size := strlen exe_dir + sizeof cfg.DIR_SEP_STR + sizeof cfg.LIBLANG_RELPATH_STR + 1
  let p := malloc uninit size
  (strcpy p exe_dir).bind fun p =>
  (strcat p cfg.DIR_SEP_STR).bind fun p =>
  (strcat p cfg.LIBLANG_RELPATH_STR).bind fun p =>
  p.cstr

/-! ## `parse_vm_options` -/

/-- What the field `optionString` of one `JavaVMOption` points to. -/
inductive Slot where
  /-- The field was never assigned. -/
  | unassigned
  /-- The field points to this string. -/
  | string (s : CStr)
  /-- The field points to a block that was written outside its bounds: the
  string read there is undefined. -/
  | overrun
deriving DecidableEq, Repr

/-- The slot for a string built in a block: the string, or `overrun` when
building it left the block. -/
def Slot.ofBlock : Option CStr → Slot
  | some s => .string s
  | none => .overrun

/-- The result record `JavaVMInitArgs`: the count and the option strings. -/
structure JavaVMInitArgs where
  /-- The field `nOptions`. -/
  nOptions : Nat
  /-- The array `options`, one slot per allocated `JavaVMOption`. -/
  options : List Slot
deriving DecidableEq, Repr

/-- How a call ends. -/
inductive Run (α : Type) where
  /-- The function returns. -/
  | ret (a : α)
  /-- The call `exit(status)`, after writing `out` to the standard output. -/
  | exit (status : Int) (out : CStr)
  /-- Undefined behaviour: a read or write outside a block, or of a null pointer. -/
  | undefined
deriving DecidableEq, Repr

/-- The line printed when `--native` is met. -/
def native_message (argv0 : CStr) : CStr :=
  lit "The native version of " ++ argv0 ++ lit " does not exist: cannot use '--native'.\n"

/-- The first loop of `parse_vm_options`: the pair is `nOptions` and
`user_launcher_cp_entries`. -/
def count_loop (argv0 : CStr) : List CStr → Nat × Nat → Run (Nat × Nat)
  | [], c => .ret c
  | a :: rest, (nOptions, user_launcher_cp_entries) =>
    if a = lit "--native" then .exit (-1) (native_message argv0)
    else if IS_VM_CP_ARG a || IS_VM_CLASSPATH_ARG a then
      count_loop argv0 rest (nOptions, user_launcher_cp_entries + 1)
    else if IS_VM_ARG a then
      count_loop argv0 rest (nOptions + 1, user_launcher_cp_entries)
    else count_loop argv0 rest (nOptions, user_launcher_cp_entries)

/-- The variables of the second loop of `parse_vm_options`. -/
structure Fill where
  /-- The array `vm_args->options`. -/
  options : List Slot
  /-- The index `option_ptr` points at. -/
  option_ptr : Nat
  /-- The array `user_cp_entries`. -/
  user_cp_entries : List (Option CStr)
  /-- The index `user_cp_iterator` points at. -/
  user_cp_iterator : Nat
deriving DecidableEq, Repr

/-- The option string synthesised for a `--vm.` argument: a block of
`strlen(arg+5) + 2` bytes, its first byte set to a dash, then `strcat`. -/
def new_option (uninit : Nat → Byte) (arg : CStr) : Option CStr :=
  let option_size := strlen (arg.drop 5) + 2
  let s := malloc uninit option_size
  (s.write 0 [some '-']).bind fun s =>
  (strcat s (arg.drop 5)).bind fun s =>
  s.cstr

/-- The second loop of `parse_vm_options`, from index `i` on. -/
def fill_loop (uninit : Nat → Nat → Byte) : Nat → List CStr → Fill → Option Fill
  | _, [], st => some st
  | i, a :: rest, st =>
    if IS_VM_ARG a then
      if IS_VM_CP_ARG a then
        (store st.user_cp_entries st.user_cp_iterator (some (a.drop 8))).bind fun u =>
        fill_loop uninit (i + 1) rest
          { st with user_cp_entries := u, user_cp_iterator := st.user_cp_iterator + 1 }
      else if IS_VM_CLASSPATH_ARG a then
        (store st.user_cp_entries st.user_cp_iterator (some (a.drop 15))).bind fun u =>
        fill_loop uninit (i + 1) rest
          { st with user_cp_entries := u, user_cp_iterator := st.user_cp_iterator + 1 }
      else
        (store st.options st.option_ptr (Slot.ofBlock (new_option (uninit i) a))).bind fun o =>
        fill_loop uninit (i + 1) rest { st with options := o, option_ptr := st.option_ptr + 1 }
    else fill_loop uninit (i + 1) rest st

/-- The array `cp_property`. -/
def cp_property : CStr := lit "-Djava.class.path="

/-- The value of `cp_size` when the classpath block is allocated. -/
def cp_size (cfg : Config) (exe_dir : CStr) (user_cp_entries : List CStr) : Int :=
  let cp_size : Int := sizeof cp_property
  let launcher_cp_cnt : Int := cfg.LAUNCHER_CLASSPATH.length
  let cp_size := cp_size
    + ((strlen exe_dir + sizeof cfg.DIR_SEP_STR) * launcher_cp_cnt
        + sizeof cfg.CP_SEP_STR * (launcher_cp_cnt - 1) + 2)
  let cp_size := cfg.LAUNCHER_CLASSPATH.foldl (fun (acc : Int) e => acc + strlen e) cp_size
  user_cp_entries.foldl (fun (acc : Int) u => acc + (strlen u + sizeof cfg.CP_SEP_STR)) cp_size

/-- The loop that appends the launcher classpath, from index `i` on. -/
def launcher_cp_loop (cfg : Config) (exe_dir : CStr) (launcher_cp_cnt : Nat) :
    Nat → List CStr → Block → Option Block
  | _, [], cp => some cp
  | i, e :: rest, cp =>
    (strcat cp exe_dir).bind fun cp =>
    (strcat cp cfg.DIR_SEP_STR).bind fun cp =>
    (strcat cp e).bind fun cp =>
    (if i + 1 < launcher_cp_cnt then strcat cp cfg.CP_SEP_STR else some cp).bind fun cp =>
    launcher_cp_loop cfg exe_dir launcher_cp_cnt (i + 1) rest cp

/-- The loop that appends the user classpath entries. -/
def user_cp_loop (cfg : Config) : List CStr → Block → Option Block
  | [], cp => some cp
  | u :: rest, cp =>
    (strcat cp cfg.CP_SEP_STR).bind fun cp =>
    (strcat cp u).bind fun cp =>
    user_cp_loop cfg rest cp

/-- The string `cp` assembled in its hand-sized block (a negative `cp_size`
makes `malloc` fail). -/
def assemble_cp (cfg : Config) (uninit : Nat → Byte) (exe_dir : CStr)
    (user_cp_entries : List CStr) : Option CStr :=
  let cp := malloc uninit (cp_size cfg exe_dir user_cp_entries).toNat
  (strcpy cp cp_property).bind fun cp =>
  (launcher_cp_loop cfg exe_dir cfg.LAUNCHER_CLASSPATH.length 0 cfg.LAUNCHER_CLASSPATH cp).bind
    fun cp =>
  (user_cp_loop cfg user_cp_entries cp).bind fun cp =>
  cp.cstr

/-- The built-in first option. -/
def launcher_class_option (cfg : Config) : CStr :=
  lit "-Dorg.graalvm.launcher.class=" ++ cfg.LAUNCHER_CLASS_STR

/-- What follows the first loop of `parse_vm_options`: the allocations, the
second loop and the classpath. -/
def parse_vm_options_fill (cfg : Config) (argv : List CStr) (exe_dir : CStr)
    (uninit : Nat → Nat → Byte) (nOptions user_launcher_cp_entries : Nat) :
    Option JavaVMInitArgs :=
  let user_cp_entries : List (Option CStr) := List.replicate user_launcher_cp_entries none
  let options : List Slot := List.replicate nOptions .unassigned
  (store options 0 (.string (launcher_class_option cfg))).bind fun options =>
  (fill_loop uninit 0 argv ⟨options, 1, user_cp_entries, 0⟩).bind fun st =>
  (read_slots st.user_cp_entries).bind fun entries =>
  (assemble_cp cfg (uninit argv.length) exe_dir entries).bind fun cp =>
  (store st.options st.option_ptr (.string cp)).bind fun options =>
  some ⟨nOptions, options⟩

/-- The function `parse_vm_options`; block `i` of `uninit` is what `malloc`
returns while `argv[i]` is handled, block `argc` what it returns for `cp`. -/
def parse_vm_options (cfg : Config) (argv : List CStr) (exe_dir : CStr)
    (uninit : Nat → Nat → Byte) : Run JavaVMInitArgs :=
  match count_loop (argv.headD []) argv (2, 0) with
  | .exit status out => .exit status out
  | .undefined => .undefined
  | .ret (nOptions, user_launcher_cp_entries) =>
    match parse_vm_options_fill cfg argv exe_dir uninit nOptions user_launcher_cp_entries with
    | none => .undefined
    | some vm_args => .ret vm_args

/-! ## `main` and the foreign calls -/

/-- The `jobjectArray` of `main`: `none` is the null reference, a slot `none` a
null element. -/
abbrev JArray := Option (List (Option CStr))

/-- The calls `main` makes outside the program and the lines it writes. -/
inductive Event where
  /-- The call `dlopen(liblang_path, RTLD_NOW)`, or `LoadLibraryA`. -/
  | dlopen (path : CStr)
  /-- The call `dlsym(jvm_handle, name)`, or `GetProcAddress`. -/
  | dlsym (name : CStr)
  /-- A line written to the standard output. -/
  | stdout (text : CStr)
  /-- A line written to the standard error. -/
  | stderr (text : CStr)
  /-- The call of the creation function with the assembled options. -/
  | createJVM (vm_args : JavaVMInitArgs)
  /-- The call `env->FindClass(name)`. -/
  | FindClass (name : CStr)
  /-- The call `env->GetStaticMethodID(launcherClass, name, sig)`. -/
  | GetStaticMethodID (name sig : CStr)
  /-- The call `env->NewObjectArray(length, byteArrayClass, NULL)`. -/
  | NewObjectArray (length : Int)
  /-- The call `env->NewByteArray(size)`. -/
  | NewByteArray (size : Nat)
  /-- The call `env->SetByteArrayRegion(arg, 0, size, bytes)`. -/
  | SetByteArrayRegion (size : Nat) (bytes : CStr)
  /-- The call `env->SetObjectArrayElement(args, index, arg)`. -/
  | SetObjectArrayElement (index : Int) (arg : CStr)
  /-- The call `env->ExceptionCheck()`. -/
  | ExceptionCheck
  /-- The call `env->ExceptionDescribe()`. -/
  | ExceptionDescribe
  /-- The call `env->CallStaticVoidMethod(launcherClass, mid, args, argc_native, argv_native)`. -/
  | CallStaticVoidMethod (args : JArray) (argc_native : Nat) (argv_native : List CStr)
deriving DecidableEq, Repr

/-- The calls made through the creation function or the `JNIEnv`. -/
def Event.isJavaCall : Event → Bool
  | .dlopen _ => false
  | .dlsym _ => false
  | .stdout _ => false
  | .stderr _ => false
  | _ => true

/-- What the operating system and the Java VM answer. -/
structure World where
  /-- The result of `exe_directory()`. -/
  exe_directory : CStr
  /-- The first contents of the block `loadliblang` allocates. -/
  uninit_liblang : Nat → Byte
  /-- The first contents of the blocks `parse_vm_options` allocates. -/
  uninit : Nat → Nat → Byte
  /-- Whether `dlopen` returns a handle for a path. -/
  dlopen : CStr → Bool
  /-- Whether `dlsym` finds `JNI_CreateJavaVM` in the library at a path. -/
  dlsym : CStr → Bool
  /-- The status the creation function returns; `JNI_OK` is 0. -/
  createJVM : JavaVMInitArgs → Int
  /-- Whether `FindClass` returns a class. -/
  FindClass : CStr → Bool
  /-- Whether `GetStaticMethodID` returns a method. -/
  GetStaticMethodID : Bool
  /-- Whether an exception is pending after a failed lookup. -/
  lookup_throws : Bool
  /-- Whether `SetByteArrayRegion` leaves an exception pending at index `i`. -/
  SetByteArrayRegion_throws : Nat → Bool
  /-- Whether `SetObjectArrayElement` leaves an exception pending at index `i`
  for another reason than the index. -/
  SetObjectArrayElement_throws : Nat → Bool
  /-- Whether the entry point leaves an exception pending. -/
  CallStaticVoidMethod_throws : Bool

/-- What a run of `main` does: the events in order and the exit status, `none`
when the behaviour is undefined. -/
structure Outcome where
  /-- The foreign calls and the lines written, in order. -/
  trace : List Event
  /-- The exit status. -/
  status : Option Int
deriving DecidableEq, Repr

/-- The function `loadliblang`: its events and whether it returns a function. -/
def loadliblang (cfg : Config) (w : World) (exe_dir : CStr) : Option (List Event × Bool) :=
  (liblang_path cfg w.uninit_liblang exe_dir).map fun liblang_path =>
    if w.dlopen liblang_path then
      ([.dlopen liblang_path, .dlsym (lit "JNI_CreateJavaVM")], w.dlsym liblang_path)
    else ([.dlopen liblang_path], false)

/-- The loop of `main` that counts the `--vm.` arguments. -/
def skip_loop : List CStr → Int → Int
  | [], skip => skip
  | a :: rest, skip => if IS_VM_ARG a then skip_loop rest (skip + 1) else skip_loop rest skip

/-- The call `NewObjectArray(length, ...)`: a negative length gives no array. -/
def NewObjectArray (length : Int) : JArray :=
  if 0 ≤ length then some (List.replicate length.toNat none) else none

/-- The call `SetObjectArrayElement`: the array afterwards, and whether an
exception is pending because there is no array or the index is outside it. -/
def SetObjectArrayElement (args : JArray) (index : Int) (arg : CStr) : JArray × Bool :=
  match args with
  | none => (none, true)
  | some arr =>
    if 0 ≤ index ∧ index < arr.length then (some (arr.set index.toNat (some arg)), false)
    else (some arr, true)

/-- The events of a lookup that failed. -/
def lookup_failed (w : World) (text : String) : List Event :=
  [.stderr (lit text), .ExceptionCheck] ++ (if w.lookup_throws then [.ExceptionDescribe] else [])

/-- The loop of `main` that fills the array, from index `i` on: the events and
either the array or the status `main` returns. -/
def marshal_loop (w : World) : Nat → List CStr → Int → JArray → List Event →
    List Event × (JArray ⊕ Int)
  | _, [], _, args, t => (t, .inl args)
  | i, a :: rest, skip, args, t =>
    if IS_VM_ARG a then marshal_loop w (i + 1) rest (skip + 1) args t
    else
      let arraySize := strlen a
      let t := t ++ [.NewByteArray arraySize, .SetByteArrayRegion arraySize a, .ExceptionCheck]
      if w.SetByteArrayRegion_throws i then
        (t ++ [.stderr (lit "Error in SetByteArrayRegion:\n"), .ExceptionDescribe], .inr (-1))
      else
        let r := SetObjectArrayElement args (i - skip) a
        let t := t ++ [.SetObjectArrayElement (i - skip) a, .ExceptionCheck]
        if r.2 || w.SetObjectArrayElement_throws i then
          (t ++ [.stderr (lit "Error in SetObjectArrayElement:\n"), .ExceptionDescribe], .inr (-1))
        else marshal_loop w (i + 1) rest skip r.1 t

/-- The function `main`, from the creation of the Java VM on. -/
def main_run (w : World) (argv : List CStr) (vm_args : JavaVMInitArgs) (t : List Event) :
    Outcome :=
  let t := t ++ [.createJVM vm_args]
  if w.createJVM vm_args ≠ 0 then
    ⟨t ++ [.stderr (lit "Creation of the JVM failed.\n")], some (-1)⟩
  else
  let t := t ++ [.FindClass (lit "[B")]
  if !w.FindClass (lit "[B") then
    ⟨t ++ lookup_failed w "Byte array class not found.\n", some (-1)⟩
  else
  let t := t ++ [.FindClass (lit "org/graalvm/launcher/AbstractLanguageLauncher")]
  if !w.FindClass (lit "org/graalvm/launcher/AbstractLanguageLauncher") then
    ⟨t ++ lookup_failed w "Launcher class not found.\n", some (-1)⟩
  else
  let t := t ++ [.GetStaticMethodID (lit "runLauncher") (lit "([[BIJ)V")]
  if !w.GetStaticMethodID then
    ⟨t ++ lookup_failed w "Launcher entry point not found.\n", some (-1)⟩
  else
  let argc_native := argv.length
  let skip := skip_loop argv 0
  let argc : Int := (argv.length : Int) - 1
  let args := NewObjectArray (argc - skip)
  let t := t ++ [.NewObjectArray (argc - skip)]
  match marshal_loop w 0 argv.tail 0 args t with
  | (t, .inr status) => ⟨t, some status⟩
  | (t, .inl args) =>
    let t := t ++ [.CallStaticVoidMethod args argc_native argv, .ExceptionCheck]
    if args.isNone || w.CallStaticVoidMethod_throws then ⟨t ++ [.ExceptionDescribe], some (-1)⟩
    else ⟨t, some 0⟩

/-- The function `main`. -/
def main (cfg : Config) (w : World) (argv : List CStr) : Outcome :=
  let exe_dir := w.exe_directory
  match loadliblang cfg w exe_dir with
  | none => ⟨[], none⟩
  | some (t, false) => ⟨t ++ [.stderr (lit "Could not load language library.\n")], some (-1)⟩
  | some (t, true) =>
    match parse_vm_options cfg argv exe_dir w.uninit with
    | .exit status out => ⟨t ++ [.stdout out], some status⟩
    | .undefined => ⟨t, none⟩
    | .ret vm_args => main_run w argv vm_args t

/-! ## What the specification says is assembled -/

/-- A classpath flag: `--vm.cp=<path>` or `--vm.classpath=<path>`. -/
def is_classpath_arg (arg : CStr) : Bool := IS_VM_CP_ARG arg || IS_VM_CLASSPATH_ARG arg

/-- A non-classpath `--vm.` argument. -/
def is_option_arg (arg : CStr) : Bool := IS_VM_ARG arg && !is_classpath_arg arg

/-- The non-classpath `--vm.` arguments, in first-seen order. -/
def option_args (argv : List CStr) : List CStr := argv.filter is_option_arg

/-- The option a non-classpath `--vm.` argument stands for: one dash, then the
text after the five characters `--vm.`. -/
def dash_option (arg : CStr) : CStr := '-' :: arg.drop 5

/-- The path a classpath flag carries. -/
def user_path (arg : CStr) : Option CStr :=
  if IS_VM_CP_ARG arg then some (arg.drop 8)
  else if IS_VM_CLASSPATH_ARG arg then some (arg.drop 15)
  else none

/-- The paths of the classpath flags, in first-seen order. -/
def user_paths (argv : List CStr) : List CStr := argv.filterMap user_path

/-- The built-in classpath entries, each behind the executable directory and
the directory separator. -/
def entry_paths (cfg : Config) (exe_dir : CStr) (entries : List CStr) : List CStr :=
  entries.map fun e => exe_dir ++ cfg.DIR_SEP_STR ++ e

/-- The part of the classpath that comes from the classpath flags: `CP_SEP` and
the path, for each flag. -/
def user_part (cfg : Config) (paths : List CStr) : CStr :=
  (paths.map fun p => cfg.CP_SEP_STR ++ p).flatten

/-- The classpath option as the specification words it: the property name, the
built-in entries joined by `CP_SEP`, then `CP_SEP` and the path for each
classpath flag. -/
def spec_classpath (cfg : Config) (exe_dir : CStr) (paths : List CStr) : CStr :=
  cp_property ++ cfg.CP_SEP_STR.intercalate (entry_paths cfg exe_dir cfg.LAUNCHER_CLASSPATH)
    ++ user_part cfg paths

/-- The heap is clean for `argv`: the block `malloc` returns for every
non-classpath `--vm.` argument has a NUL as its second byte. -/
def CleanHeap (uninit : Nat → Nat → Byte) (argv : List CStr) : Prop :=
  ∀ (i : Nat) (a : CStr), argv[i]? = some a → is_option_arg a = true → uninit i 1 = none

/-- The slots the second loop of `parse_vm_options` fills for the non-classpath
`--vm.` arguments of `args`, the first of `args` being `argv[i]`: each holds the
string built in its block. -/
def option_slots (uninit : Nat → Nat → Byte) : Nat → List CStr → List Slot
  | _, [] => []
  | i, a :: rest =>
    if is_option_arg a then
      Slot.ofBlock (new_option (uninit i) a) :: option_slots uninit (i + 1) rest
    else option_slots uninit (i + 1) rest

/-- The options the specification describes: the launcher-class option, one
option per non-classpath `--vm.` argument, the classpath option. -/
def spec_options (cfg : Config) (argv : List CStr) (exe_dir : CStr) : List CStr :=
  launcher_class_option cfg :: (option_args argv).map dash_option
    ++ [spec_classpath cfg exe_dir (user_paths argv)]

/-- The record `parse_vm_options` returns. -/
def spec_vm_args (cfg : Config) (argv : List CStr) (exe_dir : CStr)
    (uninit : Nat → Nat → Byte) : JavaVMInitArgs :=
  ⟨2 + (option_args argv).length,
    Slot.string (launcher_class_option cfg) :: option_slots uninit 0 argv
      ++ [Slot.string (spec_classpath cfg exe_dir (user_paths argv))]⟩

/-! ## What `main` hands over, and the runs that reach the entry point -/

/-- The array handed to the entry point: the first `CallStaticVoidMethod`. -/
def entry_args : List Event → Option JArray
  | [] => none
  | .CallStaticVoidMethod args _ _ :: _ => some args
  | _ :: rest => entry_args rest

/-- The event is the call of the entry point. -/
def Event.isEntryCall : Event → Bool
  | .CallStaticVoidMethod _ _ _ => true
  | _ => false

/-- The arguments `main` forwards: those that do not start with `--vm.`. -/
def forwarded (args : List CStr) : List CStr := args.filter fun a => !IS_VM_ARG a

/-- The path `loadliblang` hands to `dlopen`. -/
def spec_liblang_path (cfg : Config) (exe_dir : CStr) : CStr :=
  exe_dir ++ cfg.DIR_SEP_STR ++ cfg.LIBLANG_RELPATH_STR

/-- The run reaches the entry point with the options `vm_args`: the library
loads and the creation function is found, `parse_vm_options` returns `vm_args`,
the Java VM is created with them, the two classes and the entry point are found,
and no call leaves an exception pending while the arguments are copied. -/
structure Reaches (cfg : Config) (w : World) (argv : List CStr) (vm_args : JavaVMInitArgs) :
    Prop where
  /-- The library loads. -/
  loads : w.dlopen (spec_liblang_path cfg w.exe_directory) = true
  /-- The creation function is found. -/
  resolves : w.dlsym (spec_liblang_path cfg w.exe_directory) = true
  /-- The options are assembled. -/
  parsed : parse_vm_options cfg argv w.exe_directory w.uninit = .ret vm_args
  /-- The creation function returns `JNI_OK` for these options. -/
  created : w.createJVM vm_args = 0
  /-- The class of byte arrays is found. -/
  byte_array_class : w.FindClass (lit "[B") = true
  /-- The launcher class is found. -/
  launcher_class : w.FindClass (lit "org/graalvm/launcher/AbstractLanguageLauncher") = true
  /-- The entry point is found. -/
  method : w.GetStaticMethodID = true
  /-- Copying the bytes of an argument raises nothing. -/
  region : ∀ i, i + 1 < argv.length → w.SetByteArrayRegion_throws i = false
  /-- Storing an argument raises nothing but an index fault. -/
  element : ∀ i, i + 1 < argv.length → w.SetObjectArrayElement_throws i = false

/-! ## A concrete build, two heaps and a world -/

/-- A build with two launcher jars, on a system with `/` and `:`. -/
def demo_cfg : Config :=
  ⟨lit "com.oracle.Main", [lit "a.jar", lit "b.jar"], lit "lib/liblang.so", lit "/", lit ":"⟩

/-- A heap whose blocks come zeroed. -/
def clean_heap : Nat → Nat → Byte := fun _ _ => none

/-- A heap whose blocks come with a stale second byte and are zero elsewhere. -/
def stale_heap : Nat → Nat → Byte := fun _ j => if j = 1 then some 'Z' else none

/-- A world in which the library is found beside the executable and the Java
VM knows the two classes the launcher asks for, on a given heap. -/
def demo_world (uninit : Nat → Nat → Byte) : World where
  exe_directory := lit "/d"
  uninit_liblang := fun _ => some 'Q'
  uninit := uninit
  dlopen := fun path => path == lit "/d/lib/liblang.so"
  dlsym := fun _ => true
  createJVM := fun _ => 0
  FindClass := fun name =>
    name == lit "[B" || name == lit "org/graalvm/launcher/AbstractLanguageLauncher"
  GetStaticMethodID := true
  lookup_throws := false
  SetByteArrayRegion_throws := fun _ => false
  SetObjectArrayElement_throws := fun _ => false
  CallStaticVoidMethod_throws := false

/-! ## Blocks that hold a string -/

/-- The block starts with the string `s` and its NUL, and `k` bytes follow. -/
def Holds (b : Block) (s : CStr) (k : Nat) : Prop :=
  ∃ tail : List Byte, b = s.map some ++ none :: tail ∧ tail.length = k

theorem strlen_append_nul (s : CStr) (tail : List Byte) :
    Block.strlen (s.map some ++ none :: tail) = some s.length := by
  induction s with
  | nil => rfl
  | cons c s ih => simp [Block.strlen, ih]

theorem cstr_append_nul (s : CStr) (tail : List Byte) :
    Block.cstr (s.map some ++ none :: tail) = some s := by
  induction s with
  | nil => rfl
  | cons c s ih => simp [Block.cstr, ih]

theorem Holds.cstr {b : Block} {s : CStr} {k : Nat} (h : Holds b s k) : b.cstr = some s := by
  obtain ⟨tail, rfl, _⟩ := h
  exact cstr_append_nul s tail

theorem strcpy_holds (b : Block) (s : CStr) (h : s.length + 1 ≤ b.length) :
    ∃ b2 k2, strcpy b s = some b2 ∧ Holds b2 s k2 ∧ k2 + (s.length + 1) = b.length := by
  refine ⟨s.map some ++ none :: b.drop (s.length + 1), b.length - (s.length + 1), ?_,
    ⟨_, rfl, by simp⟩, by omega⟩
  simp [strcpy, Block.write, terminated, h]

theorem strcat_holds {b : Block} {s : CStr} {k : Nat} (hb : Holds b s k) (t : CStr)
    (h : t.length ≤ k) :
    ∃ b2 k2, strcat b t = some b2 ∧ Holds b2 (s ++ t) k2 ∧ k2 + t.length = k := by
  obtain ⟨tail, rfl, rfl⟩ := hb
  refine ⟨(s ++ t).map some ++ none :: tail.drop t.length, tail.length - t.length, ?_,
    ⟨_, rfl, by simp⟩, by omega⟩
  have hlen : s.length + (t.length + 1) ≤ s.length + (tail.length + 1) := by omega
  simp [strcat, strlen_append_nul, Block.write, terminated, hlen, List.take_append_eq_append_take,
    List.drop_append_eq_append_drop]

theorem malloc_length (uninit : Nat → Byte) (size : Nat) : (malloc uninit size).length = size := by
  simp [malloc]

/-! ## The library path -/

theorem liblang_path_eq (cfg : Config) (uninit : Nat → Byte) (exe_dir : CStr) :
    liblang_path cfg uninit exe_dir
      = some (exe_dir ++ cfg.DIR_SEP_STR ++ cfg.LIBLANG_RELPATH_STR) := by
  unfold liblang_path
  obtain ⟨b1, k1, h1, hb1, hk1⟩ := strcpy_holds
    (malloc uninit (strlen exe_dir + sizeof cfg.DIR_SEP_STR + sizeof cfg.LIBLANG_RELPATH_STR + 1))
    exe_dir (by simp [malloc_length, strlen, sizeof]; omega)
  simp only [malloc_length, strlen, sizeof] at hk1
  obtain ⟨b2, k2, h2, hb2, hk2⟩ := strcat_holds hb1 cfg.DIR_SEP_STR (by omega)
  obtain ⟨b3, k3, h3, hb3, _⟩ := strcat_holds hb2 cfg.LIBLANG_RELPATH_STR (by omega)
  simp [h1, h2, h3, hb3.cstr]

/-! ## The classpath block -/

theorem intercalate_cons_cons (sep x y : CStr) (l : List CStr) :
    sep.intercalate (x :: y :: l) = x ++ sep ++ sep.intercalate (y :: l) := by
  simp [List.intercalate, List.intersperse]

theorem entry_paths_cons (cfg : Config) (exe_dir e : CStr) (rest : List CStr) :
    entry_paths cfg exe_dir (e :: rest)
      = (exe_dir ++ cfg.DIR_SEP_STR ++ e) :: entry_paths cfg exe_dir rest := rfl

theorem user_part_cons (cfg : Config) (u : CStr) (rest : List CStr) :
    user_part cfg (u :: rest) = cfg.CP_SEP_STR ++ u ++ user_part cfg rest := by
  simp [user_part]

theorem launcher_cp_loop_holds (cfg : Config) (exe_dir : CStr) (n : Nat) :
    ∀ (entries : List CStr) (i : Nat) (cp : Block) (s : CStr) (k : Nat),
      i + entries.length = n → Holds cp s k →
      (cfg.CP_SEP_STR.intercalate (entry_paths cfg exe_dir entries)).length ≤ k →
      ∃ cp2 k2, launcher_cp_loop cfg exe_dir n i entries cp = some cp2 ∧
        Holds cp2 (s ++ cfg.CP_SEP_STR.intercalate (entry_paths cfg exe_dir entries)) k2 ∧
        k2 + (cfg.CP_SEP_STR.intercalate (entry_paths cfg exe_dir entries)).length = k := by
  intro entries
  induction entries with
  | nil =>
    intro i cp s k _ h _
    exact ⟨cp, k, rfl, by simpa [entry_paths, List.intercalate] using h,
      by simp [entry_paths, List.intercalate]⟩
  | cons e rest ih =>
    intro i cp s k hi h hk
    cases rest with
    | nil =>
      simp only [entry_paths, List.map, List.intercalate, List.intersperse, List.flatten,
        List.append_nil, List.length_append] at hk ⊢
      obtain ⟨b1, k1, h1, hb1, hk1⟩ := strcat_holds h exe_dir (by omega)
      obtain ⟨b2, k2, h2, hb2, hk2⟩ := strcat_holds hb1 cfg.DIR_SEP_STR (by omega)
      obtain ⟨b3, k3, h3, hb3, hk3⟩ := strcat_holds hb2 e (by omega)
      have hlast : ¬ i + 1 < n := by simp at hi; omega
      refine ⟨b3, k3, by simp [launcher_cp_loop, h1, h2, h3, hlast], ?_, ?_⟩
      · simpa [List.append_assoc] using hb3
      · omega
    | cons e2 rest2 =>
      rw [entry_paths_cons, entry_paths_cons, intercalate_cons_cons, ← entry_paths_cons] at hk ⊢
      generalize cfg.CP_SEP_STR.intercalate (entry_paths cfg exe_dir (e2 :: rest2)) = J at ih hk ⊢
      simp only [List.length_append] at hk ⊢
      obtain ⟨b1, k1, h1, hb1, hk1⟩ := strcat_holds h exe_dir (by omega)
      obtain ⟨b2, k2, h2, hb2, hk2⟩ := strcat_holds hb1 cfg.DIR_SEP_STR (by omega)
      obtain ⟨b3, k3, h3, hb3, hk3⟩ := strcat_holds hb2 e (by omega)
      obtain ⟨b4, k4, h4, hb4, hk4⟩ := strcat_holds hb3 cfg.CP_SEP_STR (by omega)
      have hmore : i + 1 < n := by simp at hi; omega
      obtain ⟨b5, k5, h5, hb5, hk5⟩ := ih (i + 1) b4 _ _ (by simp at hi ⊢; omega) hb4 (by omega)
      refine ⟨b5, k5, by rw [launcher_cp_loop]; simp [h1, h2, h3, h4, hmore, h5], ?_, ?_⟩
      · simpa [List.append_assoc] using hb5
      · omega

theorem user_cp_loop_holds (cfg : Config) :
    ∀ (paths : List CStr) (cp : Block) (s : CStr) (k : Nat),
      Holds cp s k → (user_part cfg paths).length ≤ k →
      ∃ cp2 k2, user_cp_loop cfg paths cp = some cp2 ∧
        Holds cp2 (s ++ user_part cfg paths) k2 ∧ k2 + (user_part cfg paths).length = k := by
  intro paths
  induction paths with
  | nil =>
    intro cp s k h _
    exact ⟨cp, k, rfl, by simpa [user_part] using h, by simp [user_part]⟩
  | cons u rest ih =>
    intro cp s k h hk
    rw [user_part_cons] at hk ⊢
    generalize user_part cfg rest = J at ih hk ⊢
    simp only [List.length_append] at hk ⊢
    obtain ⟨b1, k1, h1, hb1, hk1⟩ := strcat_holds h cfg.CP_SEP_STR (by omega)
    obtain ⟨b2, k2, h2, hb2, hk2⟩ := strcat_holds hb1 u (by omega)
    obtain ⟨b3, k3, h3, hb3, hk3⟩ := ih b2 _ _ hb2 (by omega)
    refine ⟨b3, k3, by rw [user_cp_loop]; simp [h1, h2, h3], ?_, ?_⟩
    · simpa [List.append_assoc] using hb3
    · omega

/-! ## The size of the classpath block -/

theorem foldl_add_strlen (l : List CStr) (a : Int) :
    l.foldl (fun (acc : Int) e => acc + strlen e) a = a + ((l.map List.length).sum : Nat) := by
  induction l generalizing a with
  | nil => simp
  | cons e rest ih =>
    rw [List.foldl_cons, ih]
    simp only [List.map_cons, List.sum_cons, strlen]
    push_cast
    ring

theorem foldl_add_user (sep : CStr) (l : List CStr) (a : Int) :
    l.foldl (fun (acc : Int) u => acc + (strlen u + sizeof sep)) a
      = a + (((l.map List.length).sum + l.length * (sep.length + 1) : Nat) : Int) := by
  induction l generalizing a with
  | nil => simp
  | cons e rest ih =>
    rw [List.foldl_cons, ih]
    simp only [List.map_cons, List.sum_cons, List.length_cons, strlen, sizeof]
    push_cast
    ring

theorem length_intercalate_entry_paths (cfg : Config) (exe_dir : CStr) (entries : List CStr)
    (hne : entries ≠ []) :
    (cfg.CP_SEP_STR.intercalate (entry_paths cfg exe_dir entries)).length + cfg.CP_SEP_STR.length
      = entries.length * (exe_dir.length + cfg.DIR_SEP_STR.length + cfg.CP_SEP_STR.length)
        + (entries.map List.length).sum := by
  induction entries with
  | nil => exact absurd rfl hne
  | cons e rest ih =>
    cases rest with
    | nil => simp [entry_paths, List.intercalate, List.intersperse]; omega
    | cons e2 rest2 =>
      have ih2 := ih (by simp)
      rw [entry_paths_cons, entry_paths_cons, intercalate_cons_cons, ← entry_paths_cons]
      generalize cfg.CP_SEP_STR.intercalate (entry_paths cfg exe_dir (e2 :: rest2)) = J at ih2 ⊢
      simp only [List.length_append, List.length_cons, List.map_cons, List.sum_cons] at ih2 ⊢
      simp only [Nat.add_mul, Nat.one_mul] at ih2 ⊢
      omega

theorem length_user_part (cfg : Config) (paths : List CStr) :
    (user_part cfg paths).length
      = paths.length * cfg.CP_SEP_STR.length + (paths.map List.length).sum := by
  induction paths with
  | nil => simp [user_part]
  | cons u rest ih =>
    rw [user_part_cons]
    simp only [List.length_append, ih, List.length_cons, List.map_cons, List.sum_cons,
      Nat.add_mul]
    omega

/-- With a launcher classpath of `n ≥ 1` entries and `m` user paths, `cp_size`
is the length of the classpath string, its NUL, and `2n + 1 + m` bytes more. -/
theorem cp_size_eq (cfg : Config) (exe_dir : CStr) (paths : List CStr)
    (hne : cfg.LAUNCHER_CLASSPATH ≠ []) :
    cp_size cfg exe_dir paths
      = ((spec_classpath cfg exe_dir paths).length + 1
          + (2 * cfg.LAUNCHER_CLASSPATH.length + 1 + paths.length) : Nat) := by
  have h1 := length_intercalate_entry_paths cfg exe_dir cfg.LAUNCHER_CLASSPATH hne
  have h2 := length_user_part cfg paths
  have h3 : (cp_property.length : Int) = 18 := by decide
  unfold cp_size spec_classpath
  simp only [foldl_add_strlen, foldl_add_user]
  simp only [List.length_append, sizeof, strlen]
  generalize (cfg.CP_SEP_STR.intercalate (entry_paths cfg exe_dir cfg.LAUNCHER_CLASSPATH)).length
    = J at h1 ⊢
  generalize (user_part cfg paths).length = U at h2 ⊢
  have h1z : (J : Int) + cfg.CP_SEP_STR.length
      = cfg.LAUNCHER_CLASSPATH.length
          * ((exe_dir.length : Int) + cfg.DIR_SEP_STR.length + cfg.CP_SEP_STR.length)
        + ((cfg.LAUNCHER_CLASSPATH.map List.length).sum : Nat) := by exact_mod_cast h1
  have h2z : (U : Int) = paths.length * (cfg.CP_SEP_STR.length : Int)
      + ((paths.map List.length).sum : Nat) := by exact_mod_cast h2
  push_cast
  rw [h3]
  linarith

/-- With a non-empty launcher classpath the classpath block is large enough,
and the string assembled in it is the one the specification words. -/
theorem assemble_cp_eq (cfg : Config) (uninit : Nat → Byte) (exe_dir : CStr)
    (paths : List CStr) (hne : cfg.LAUNCHER_CLASSPATH ≠ []) :
    assemble_cp cfg uninit exe_dir paths = some (spec_classpath cfg exe_dir paths) := by
  have hsize := cp_size_eq cfg exe_dir paths hne
  unfold assemble_cp
  rw [hsize, Int.toNat_ofNat]
  unfold spec_classpath at *
  simp only [List.length_append] at hsize ⊢
  obtain ⟨b1, k1, h1, hb1, hk1⟩ := strcpy_holds
    (malloc uninit (cp_property.length
      + (cfg.CP_SEP_STR.intercalate (entry_paths cfg exe_dir cfg.LAUNCHER_CLASSPATH)).length
      + (user_part cfg paths).length + 1
      + (2 * cfg.LAUNCHER_CLASSPATH.length + 1 + paths.length))) cp_property
    (by rw [malloc_length]; omega)
  rw [malloc_length] at hk1
  obtain ⟨b2, k2, h2, hb2, hk2⟩ := launcher_cp_loop_holds cfg exe_dir
    cfg.LAUNCHER_CLASSPATH.length cfg.LAUNCHER_CLASSPATH 0 b1 _ _ (by simp) hb1 (by omega)
  obtain ⟨b3, k3, h3, hb3, _⟩ := user_cp_loop_holds cfg paths b2 _ _ hb2 (by omega)
  simp [h1, h2, h3, hb3.cstr]

/-! ## The synthesised options -/

theorem malloc_succ_succ (uninit : Nat → Byte) (n : Nat) :
    ∃ tail : List Byte, malloc uninit (n + 2) = uninit 0 :: uninit 1 :: tail ∧ tail.length = n := by
  refine ⟨(List.range n).map fun i => uninit (i + 2), ?_, by simp⟩
  simp [malloc, List.range_succ_eq_map, Function.comp_def]

/-- On a block whose second byte is NUL the option is a dash and the payload. -/
theorem new_option_clean (uninit : Nat → Byte) (arg : CStr) (h : uninit 1 = none) :
    new_option uninit arg = some (dash_option arg) := by
  obtain ⟨tail, hm, htail⟩ := malloc_succ_succ uninit (arg.drop 5).length
  unfold new_option
  simp only [strlen, hm, h]
  have hw : Block.write (uninit 0 :: none :: tail) 0 [some '-'] = some (some '-' :: none :: tail) := by
    simp [Block.write]
  have hh : Holds (some '-' :: none :: tail) ['-'] (arg.drop 5).length := ⟨tail, rfl, htail⟩
  obtain ⟨b2, k2, h2, hb2, _⟩ := strcat_holds hh (arg.drop 5) (le_refl _)
  simp [hw, h2, hb2.cstr, dash_option]

theorem strcpy_of_some {b b2 : Block} {s : CStr} (h : strcpy b s = some b2) :
    ∃ k2, Holds b2 s k2 := by
  simp only [strcpy, Block.write, terminated] at h
  split at h
  · simp only [Option.some.injEq] at h
    subst h
    exact ⟨_, b.drop (s.length + 1), by simp, rfl⟩
  · exact absurd h (by simp)

theorem strcat_of_some {b b2 : Block} {s : CStr} {k : Nat} (hb : Holds b s k) {t : CStr}
    (h : strcat b t = some b2) : ∃ k2, Holds b2 (s ++ t) k2 := by
  by_cases hk : t.length ≤ k
  · obtain ⟨b3, k3, h3, hb3, _⟩ := strcat_holds hb t hk
    rw [h3] at h
    simp only [Option.some.injEq] at h
    subst h
    exact ⟨k3, hb3⟩
  · obtain ⟨tail, rfl, rfl⟩ := hb
    have hlen : ¬ s.length + (t.length + 1) ≤ s.length + (tail.length + 1) := by omega
    simp [strcat, strlen_append_nul, Block.write, terminated, hlen] at h

theorem launcher_cp_loop_of_some (cfg : Config) (exe_dir : CStr) (n : Nat) :
    ∀ (entries : List CStr) (i : Nat) (cp cp2 : Block) (s : CStr) (k : Nat),
      i + entries.length = n → Holds cp s k →
      launcher_cp_loop cfg exe_dir n i entries cp = some cp2 →
      ∃ k2, Holds cp2 (s ++ cfg.CP_SEP_STR.intercalate (entry_paths cfg exe_dir entries)) k2 := by
  intro entries
  induction entries with
  | nil =>
    intro i cp cp2 s k _ h hl
    simp only [launcher_cp_loop, Option.some.injEq] at hl
    subst hl
    exact ⟨k, by simpa [entry_paths, List.intercalate] using h⟩
  | cons e rest ih =>
    intro i cp cp2 s k hi h hl
    rw [launcher_cp_loop] at hl
    simp only [Option.bind_eq_some] at hl
    obtain ⟨b1, h1, b2, h2, b3, h3, b4, h4, h5⟩ := hl
    obtain ⟨k1, hb1⟩ := strcat_of_some h h1
    obtain ⟨k2, hb2⟩ := strcat_of_some hb1 h2
    obtain ⟨k3, hb3⟩ := strcat_of_some hb2 h3
    cases rest with
    | nil =>
      have hlast : ¬ i + 1 < n := by simp at hi; omega
      simp only [hlast, if_false, Option.some.injEq] at h4
      subst h4
      simp only [launcher_cp_loop, Option.some.injEq] at h5
      subst h5
      exact ⟨k3, by simpa [entry_paths, List.intercalate, List.append_assoc] using hb3⟩
    | cons e2 rest2 =>
      have hmore : i + 1 < n := by simp at hi; omega
      simp only [hmore, if_true] at h4
      obtain ⟨k4, hb4⟩ := strcat_of_some hb3 h4
      obtain ⟨k5, hb5⟩ := ih (i + 1) b4 cp2 _ _ (by simp at hi ⊢; omega) hb4 h5
      refine ⟨k5, ?_⟩
      rw [entry_paths_cons, entry_paths_cons, intercalate_cons_cons, ← entry_paths_cons]
      simpa [List.append_assoc] using hb5

theorem user_cp_loop_of_some (cfg : Config) :
    ∀ (paths : List CStr) (cp cp2 : Block) (s : CStr) (k : Nat),
      Holds cp s k → user_cp_loop cfg paths cp = some cp2 →
      ∃ k2, Holds cp2 (s ++ user_part cfg paths) k2 := by
  intro paths
  induction paths with
  | nil =>
    intro cp cp2 s k h hl
    simp only [user_cp_loop, Option.some.injEq] at hl
    subst hl
    exact ⟨k, by simpa [user_part] using h⟩
  | cons u rest ih =>
    intro cp cp2 s k h hl
    rw [user_cp_loop] at hl
    simp only [Option.bind_eq_some] at hl
    obtain ⟨b1, h1, b2, h2, h3⟩ := hl
    obtain ⟨k1, hb1⟩ := strcat_of_some h h1
    obtain ⟨k2, hb2⟩ := strcat_of_some hb1 h2
    obtain ⟨k3, hb3⟩ := ih b2 cp2 _ _ hb2 h3
    refine ⟨k3, ?_⟩
    rw [user_part_cons]
    simpa [List.append_assoc] using hb3

/-- Whatever the build and the heap, when the classpath is assembled inside its
block it is the string the specification words. -/
theorem assemble_cp_of_some (cfg : Config) (uninit : Nat → Byte) (exe_dir : CStr)
    (paths : List CStr) (cp : CStr) (h : assemble_cp cfg uninit exe_dir paths = some cp) :
    cp = spec_classpath cfg exe_dir paths := by
  unfold assemble_cp at h
  simp only [Option.bind_eq_some] at h
  obtain ⟨b1, h1, b2, h2, b3, h3, h4⟩ := h
  obtain ⟨k1, hb1⟩ := strcpy_of_some h1
  obtain ⟨k2, hb2⟩ := launcher_cp_loop_of_some cfg exe_dir _ _ 0 b1 b2 _ _ (by simp) hb1 h2
  obtain ⟨k3, hb3⟩ := user_cp_loop_of_some cfg paths b2 b3 _ _ hb2 h3
  rw [hb3.cstr] at h4
  simp only [Option.some.injEq] at h4
  rw [← h4, spec_classpath]

/-- The classpath is assembled whenever `cp_size` covers the string and its
NUL. -/
theorem assemble_cp_of_fits (cfg : Config) (uninit : Nat → Byte) (exe_dir : CStr)
    (paths : List CStr)
    (hfit : (spec_classpath cfg exe_dir paths).length + 1 ≤ (cp_size cfg exe_dir paths).toNat) :
    assemble_cp cfg uninit exe_dir paths = some (spec_classpath cfg exe_dir paths) := by
  unfold assemble_cp
  unfold spec_classpath at *
  simp only [List.length_append] at hfit
  obtain ⟨b1, k1, h1, hb1, hk1⟩ := strcpy_holds
    (malloc uninit (cp_size cfg exe_dir paths).toNat) cp_property
    (by rw [malloc_length]; omega)
  rw [malloc_length] at hk1
  obtain ⟨b2, k2, h2, hb2, hk2⟩ := launcher_cp_loop_holds cfg exe_dir
    cfg.LAUNCHER_CLASSPATH.length cfg.LAUNCHER_CLASSPATH 0 b1 _ _ (by simp) hb1 (by omega)
  obtain ⟨b3, k3, h3, hb3, _⟩ := user_cp_loop_holds cfg paths b2 _ _ hb2 (by omega)
  simp [h1, h2, h3, hb3.cstr]

/-- With an empty launcher classpath `cp_size` is the length of the string,
its NUL, and one byte per user path, less the length of `CP_SEP`, plus one. -/
theorem cp_size_of_empty (cfg : Config) (exe_dir : CStr) (paths : List CStr)
    (hnil : cfg.LAUNCHER_CLASSPATH = []) :
    cp_size cfg exe_dir paths
      = ((spec_classpath cfg exe_dir paths).length : Int) + 1
          + (1 + paths.length - cfg.CP_SEP_STR.length) := by
  have h2 := length_user_part cfg paths
  have h3 : (cp_property.length : Int) = 18 := by decide
  unfold cp_size spec_classpath
  simp only [foldl_add_strlen, foldl_add_user]
  simp only [hnil, entry_paths, List.map_nil, List.intercalate, List.intersperse, List.flatten,
    List.length_append, List.length_nil, List.sum_nil, sizeof, strlen]
  generalize (user_part cfg paths).length = U at h2 ⊢
  have h2z : (U : Int) = paths.length * (cfg.CP_SEP_STR.length : Int)
      + ((paths.map List.length).sum : Nat) := by exact_mod_cast h2
  push_cast
  rw [h3]
  linarith

/-- The classpath block suffices for every non-empty launcher classpath, and
for an empty one when `CP_SEP` is no longer than one plus the number of user
paths. -/
theorem assemble_cp_total (cfg : Config) (uninit : Nat → Byte) (exe_dir : CStr)
    (paths : List CStr)
    (h : cfg.LAUNCHER_CLASSPATH ≠ [] ∨ cfg.CP_SEP_STR.length ≤ 1 + paths.length) :
    assemble_cp cfg uninit exe_dir paths = some (spec_classpath cfg exe_dir paths) := by
  apply assemble_cp_of_fits
  by_cases hne : cfg.LAUNCHER_CLASSPATH = []
  · have hs := cp_size_of_empty cfg exe_dir paths hne
    have hc : cfg.CP_SEP_STR.length ≤ 1 + paths.length := by
      rcases h with h | h
      · exact absurd hne h
      · exact h
    omega
  · have hs := cp_size_eq cfg exe_dir paths hne
    omega

/-! ## The two loops over the arguments -/

theorem IS_VM_ARG_of_CP (a : CStr) (h : IS_VM_CP_ARG a = true) : IS_VM_ARG a = true := by
  simp only [IS_VM_CP_ARG, IS_VM_ARG, strncmp_eq, beq_iff_eq] at h ⊢
  have h5 : (a.take 8).take 5 = a.take 5 := by simp [List.take_take]
  rw [← h5, h]
  decide

theorem IS_VM_ARG_of_CLASSPATH (a : CStr) (h : IS_VM_CLASSPATH_ARG a = true) :
    IS_VM_ARG a = true := by
  simp only [IS_VM_CLASSPATH_ARG, IS_VM_ARG, strncmp_eq, beq_iff_eq] at h ⊢
  have h5 : (a.take 15).take 5 = a.take 5 := by simp [List.take_take]
  rw [← h5, h]
  decide

theorem store_next {α : Type} (pre : List α) (k : Nat) (x v : α) :
    store (pre ++ List.replicate (k + 1) x) pre.length v
      = some ((pre ++ [v]) ++ List.replicate k x) := by
  simp [store, List.replicate_succ]

theorem read_slots_map_some (l : List CStr) : read_slots (l.map some) = some l := by
  induction l with
  | nil => rfl
  | cons s rest ih => simp [read_slots, ih]

theorem count_loop_ret (argv0 : CStr) (args : List CStr) (hnat : lit "--native" ∉ args)
    (n m : Nat) :
    count_loop argv0 args (n, m)
      = .ret (n + (option_args args).length, m + (user_paths args).length) := by
  induction args generalizing n m with
  | nil => rfl
  | cons a rest ih =>
    have ha : a ≠ lit "--native" := fun h => hnat (by simp [h])
    have hrest : lit "--native" ∉ rest := fun h => hnat (by simp [h])
    rw [count_loop]
    by_cases hcp : IS_VM_CP_ARG a = true
    · simp [ha, hcp, ih hrest, option_args, user_paths, user_path, is_option_arg,
        is_classpath_arg, List.filter_cons, List.filterMap_cons]
      omega
    · by_cases hcl : IS_VM_CLASSPATH_ARG a = true
      · simp [ha, hcp, hcl, ih hrest, option_args, user_paths, user_path, is_option_arg,
          is_classpath_arg, List.filter_cons, List.filterMap_cons]
        omega
      · by_cases hvm : IS_VM_ARG a = true
        · simp [ha, hcp, hcl, hvm, ih hrest, option_args, user_paths, user_path, is_option_arg,
            is_classpath_arg, List.filter_cons, List.filterMap_cons]
          omega
        · simp [ha, hcp, hcl, hvm, ih hrest, option_args, user_paths, user_path, is_option_arg,
            is_classpath_arg, List.filter_cons, List.filterMap_cons]

theorem count_loop_exit (argv0 : CStr) (args : List CStr) (hnat : lit "--native" ∈ args)
    (c : Nat × Nat) : count_loop argv0 args c = .exit (-1) (native_message argv0) := by
  induction args generalizing c with
  | nil => simp at hnat
  | cons a rest ih =>
    obtain ⟨n, m⟩ := c
    rw [count_loop]
    by_cases ha : a = lit "--native"
    · simp [ha]
    · have hrest : lit "--native" ∈ rest := by
        rcases List.mem_cons.mp hnat with h | h
        · exact absurd h.symm ha
        · exact h
      simp only [ha, if_false]
      split
      · exact ih hrest _
      · split
        · exact ih hrest _
        · exact ih hrest _

theorem option_slots_length (uninit : Nat → Nat → Byte) (args : List CStr) :
    ∀ i, (option_slots uninit i args).length = (option_args args).length := by
  induction args with
  | nil => intro i; rfl
  | cons a rest ih =>
    intro i
    by_cases h : is_option_arg a = true
    · simp [option_slots, option_args, List.filter_cons, h, ih (i + 1)]
    · simp [option_slots, option_args, List.filter_cons, h, ih (i + 1)]

/-- On a clean heap every option slot holds the dash option of its argument. -/
theorem option_slots_clean (uninit : Nat → Nat → Byte) (args : List CStr) :
    ∀ i, (∀ (n : Nat) (a : CStr), args[n]? = some a → is_option_arg a = true →
        uninit (i + n) 1 = none) →
      option_slots uninit i args = (option_args args).map fun a => Slot.string (dash_option a) := by
  induction args with
  | nil => intro i _; rfl
  | cons a rest ih =>
    intro i hclean
    have hclean2 : ∀ (n : Nat) (b : CStr), rest[n]? = some b → is_option_arg b = true →
        uninit (i + 1 + n) 1 = none := by
      intro n b hn hb
      have := hclean (n + 1) b (by simpa using hn) hb
      rwa [show i + (n + 1) = i + 1 + n by omega] at this
    by_cases ha : is_option_arg a = true
    · have hnew := new_option_clean (uninit i) a (by simpa using hclean 0 a (by simp) ha)
      have hrec := ih (i + 1) hclean2
      simp only [option_args] at hrec
      simp [option_slots, option_args, List.filter_cons, ha, hnew, Slot.ofBlock, hrec]
    · have hrec := ih (i + 1) hclean2
      simp only [option_args] at hrec
      simp [option_slots, option_args, List.filter_cons, ha, hrec]

/-- The second loop, whatever the heap: it fills the option slots and the
user entries in order, as long as the arrays have room. -/
theorem fill_loop_eq (uninit : Nat → Nat → Byte) (args : List CStr) :
    ∀ (i : Nat) (pre : List Slot) (upre : List (Option CStr)) (k j : Nat),
      (option_args args).length ≤ k → (user_paths args).length ≤ j →
      fill_loop uninit i args
          ⟨pre ++ List.replicate k .unassigned, pre.length,
            upre ++ List.replicate j none, upre.length⟩
        = some ⟨pre ++ option_slots uninit i args
                  ++ List.replicate (k - (option_args args).length) .unassigned,
                pre.length + (option_args args).length,
                upre ++ (user_paths args).map some
                  ++ List.replicate (j - (user_paths args).length) none,
                upre.length + (user_paths args).length⟩ := by
  induction args with
  | nil => intro i pre upre k j _ _; simp [fill_loop, option_args, user_paths, option_slots]
  | cons a rest ih =>
    intro i pre upre k j hk hj
    rw [fill_loop]
    by_cases hcp : IS_VM_CP_ARG a = true
    · have hvm := IS_VM_ARG_of_CP a hcp
      have hu : user_paths (a :: rest) = a.drop 8 :: user_paths rest := by
        simp [user_paths, user_path, hcp, List.filterMap_cons]
      have hopt : is_option_arg a = false := by simp [is_option_arg, is_classpath_arg, hcp]
      have ho : option_args (a :: rest) = option_args rest := by
        simp [option_args, hopt, List.filter_cons]
      have hs : option_slots uninit i (a :: rest) = option_slots uninit (i + 1) rest := by
        simp [option_slots, hopt]
      simp only [hu, ho, hs] at hj hk ⊢
      simp only [List.length_cons] at hj
      obtain ⟨j2, rfl⟩ : ∃ j2, j = j2 + 1 := ⟨j - 1, by omega⟩
      have := ih (i + 1) pre (upre ++ [some (a.drop 8)]) k j2 hk (by omega)
      simp only [List.length_append, List.length_singleton] at this
      simp only [hvm, hcp, if_true, store_next, Option.some_bind]
      simpa [Nat.add_assoc, Nat.add_comm 1] using this
    · by_cases hcl : IS_VM_CLASSPATH_ARG a = true
      · have hvm := IS_VM_ARG_of_CLASSPATH a hcl
        have hu : user_paths (a :: rest) = a.drop 15 :: user_paths rest := by
          simp [user_paths, user_path, hcp, hcl, List.filterMap_cons]
        have hopt : is_option_arg a = false := by simp [is_option_arg, is_classpath_arg, hcl]
        have ho : option_args (a :: rest) = option_args rest := by
          simp [option_args, hopt, List.filter_cons]
        have hs : option_slots uninit i (a :: rest) = option_slots uninit (i + 1) rest := by
          simp [option_slots, hopt]
        simp only [hu, ho, hs] at hj hk ⊢
        simp only [List.length_cons] at hj
        obtain ⟨j2, rfl⟩ : ∃ j2, j = j2 + 1 := ⟨j - 1, by omega⟩
        have := ih (i + 1) pre (upre ++ [some (a.drop 15)]) k j2 hk (by omega)
        simp only [List.length_append, List.length_singleton] at this
        simp only [hvm, hcp, hcl, if_true, if_false, store_next, Option.some_bind]
        simpa [Nat.add_assoc, Nat.add_comm 1] using this
      · have hu : user_paths (a :: rest) = user_paths rest := by
          simp [user_paths, user_path, hcp, hcl, List.filterMap_cons]
        by_cases hvm : IS_VM_ARG a = true
        · have hopt : is_option_arg a = true := by
            simp [is_option_arg, is_classpath_arg, hvm, hcp, hcl]
          have ho : option_args (a :: rest) = a :: option_args rest := by
            simp [option_args, hopt, List.filter_cons]
          have hs : option_slots uninit i (a :: rest)
              = Slot.ofBlock (new_option (uninit i) a) :: option_slots uninit (i + 1) rest := by
            simp [option_slots, hopt]
          simp only [hu, ho, hs] at hj hk ⊢
          simp only [List.length_cons] at hk
          obtain ⟨k2, rfl⟩ : ∃ k2, k = k2 + 1 := ⟨k - 1, by omega⟩
          have := ih (i + 1) (pre ++ [Slot.ofBlock (new_option (uninit i) a)]) upre k2 j
            (by omega) hj
          simp only [List.length_append, List.length_singleton] at this
          simp only [hvm, hcp, hcl, if_true, if_false, store_next, Option.some_bind]
          simpa [Nat.add_assoc, Nat.add_comm 1] using this
        · have hopt : is_option_arg a = false := by simp [is_option_arg, hvm]
          have ho : option_args (a :: rest) = option_args rest := by
            simp [option_args, hopt, List.filter_cons]
          have hs : option_slots uninit i (a :: rest) = option_slots uninit (i + 1) rest := by
            simp [option_slots, hopt]
          simp only [hu, ho, hs] at hj hk ⊢
          simpa [hvm] using ih (i + 1) pre upre k j hk hj

/-! ## `parse_vm_options`, whatever the heap -/

/-- Without `--native` the call is undefined when the classpath leaves its
block, and returns `spec_vm_args` otherwise. -/
theorem parse_vm_options_eq (cfg : Config) (argv : List CStr) (exe_dir : CStr)
    (uninit : Nat → Nat → Byte) (hnat : lit "--native" ∉ argv) :
    parse_vm_options cfg argv exe_dir uninit
      = match assemble_cp cfg (uninit argv.length) exe_dir (user_paths argv) with
        | none => .undefined
        | some _ => .ret (spec_vm_args cfg argv exe_dir uninit) := by
  unfold parse_vm_options
  rw [count_loop_ret _ _ hnat]
  simp only [Nat.zero_add]
  unfold parse_vm_options_fill
  have h0 : store (List.replicate (2 + (option_args argv).length) Slot.unassigned) 0
        (Slot.string (launcher_class_option cfg))
      = some ([Slot.string (launcher_class_option cfg)]
          ++ List.replicate ((option_args argv).length + 1) Slot.unassigned) := by
    have := store_next [] ((option_args argv).length + 1) Slot.unassigned
      (Slot.string (launcher_class_option cfg))
    simpa [Nat.add_comm 2] using this
  have h1 := fill_loop_eq uninit argv 0 [Slot.string (launcher_class_option cfg)] []
    ((option_args argv).length + 1) (user_paths argv).length (by omega) (le_refl _)
  simp only [List.nil_append, List.length_nil, List.length_singleton, Nat.sub_self,
    List.replicate_zero, List.append_nil, Nat.add_sub_cancel_left, Nat.zero_add] at h1
  simp only [h0, Option.some_bind, h1, read_slots_map_some]
  cases hcp : assemble_cp cfg (uninit argv.length) exe_dir (user_paths argv) with
  | none => simp
  | some cp =>
    have hspec := assemble_cp_of_some cfg _ exe_dir _ cp hcp
    subst hspec
    have h2 := store_next
      ([Slot.string (launcher_class_option cfg)] ++ option_slots uninit 0 argv) 0 Slot.unassigned
      (Slot.string (spec_classpath cfg exe_dir (user_paths argv)))
    simp only [List.length_append, List.length_singleton, option_slots_length, Nat.zero_add,
      List.replicate_zero, List.append_nil] at h2
    simp only [Option.some_bind, h2, spec_vm_args]
    simp

/-- Without `--native` the call returns for every non-empty launcher classpath,
and for an empty one when `CP_SEP` is no longer than one plus the number of
classpath flags; the heap plays no part. -/
theorem parse_vm_options_returns (cfg : Config) (argv : List CStr) (exe_dir : CStr)
    (uninit : Nat → Nat → Byte) (hnat : lit "--native" ∉ argv)
    (hfit : cfg.LAUNCHER_CLASSPATH ≠ []
      ∨ cfg.CP_SEP_STR.length ≤ 1 + (user_paths argv).length) :
    parse_vm_options cfg argv exe_dir uninit = .ret (spec_vm_args cfg argv exe_dir uninit) := by
  rw [parse_vm_options_eq cfg argv exe_dir uninit hnat,
    assemble_cp_total cfg _ exe_dir _ hfit]

/-- On a clean heap the options are the strings the specification describes. -/
theorem spec_vm_args_clean (cfg : Config) (argv : List CStr) (exe_dir : CStr)
    (uninit : Nat → Nat → Byte) (hclean : CleanHeap uninit argv) :
    spec_vm_args cfg argv exe_dir uninit
      = ⟨2 + (option_args argv).length, (spec_options cfg argv exe_dir).map Slot.string⟩ := by
  have h := option_slots_clean uninit argv 0 (by intro n a hn ha; simpa using hclean n a hn ha)
  simp [spec_vm_args, spec_options, h, Function.comp_def]

/-! ## The argument array of `main` -/

theorem entry_args_append (t t2 : List Event) (h : ∀ e ∈ t, e.isEntryCall = false) :
    entry_args (t ++ t2) = entry_args t2 := by
  induction t with
  | nil => rfl
  | cons e rest ih =>
    have he := h e (by simp)
    have hrest := ih (fun x hx => h x (by simp [hx]))
    cases e <;> simp_all [entry_args, Event.isEntryCall]

theorem skip_loop_eq (args : List CStr) (skip : Int) :
    skip_loop args skip = skip + (args.countP IS_VM_ARG : Nat) := by
  induction args generalizing skip with
  | nil => simp [skip_loop]
  | cons a rest ih =>
    by_cases h : IS_VM_ARG a = true
    · simp [skip_loop, h, ih]; omega
    · simp [skip_loop, h, ih]

theorem forwarded_length (args : List CStr) :
    (forwarded args).length + args.countP IS_VM_ARG = args.length := by
  induction args with
  | nil => rfl
  | cons a rest ih =>
    by_cases h : IS_VM_ARG a = true
    · simp [forwarded, List.filter_cons, h] at ih ⊢; omega
    · simp [forwarded, List.filter_cons, h] at ih ⊢; omega

theorem SetObjectArrayElement_next (filled : List CStr) (r : Nat) (a : CStr) :
    SetObjectArrayElement (some (filled.map some ++ List.replicate (r + 1) none))
        (filled.length : Int) a
      = (some ((filled ++ [a]).map some ++ List.replicate r none), false) := by
  simp [SetObjectArrayElement, List.replicate_succ]

theorem loadliblang_eq (cfg : Config) (w : World) (exe_dir : CStr) :
    loadliblang cfg w exe_dir
      = some (if w.dlopen (spec_liblang_path cfg exe_dir) then
          ([.dlopen (spec_liblang_path cfg exe_dir), .dlsym (lit "JNI_CreateJavaVM")],
            w.dlsym (spec_liblang_path cfg exe_dir))
        else ([.dlopen (spec_liblang_path cfg exe_dir)], false)) := by
  simp [loadliblang, liblang_path_eq, spec_liblang_path]

theorem marshal_loop_append (w : World) (rest : List CStr) :
    ∀ (i : Nat) (skip : Int) (args : JArray) (t : List Event),
      marshal_loop w i rest skip args t
        = (t ++ (marshal_loop w i rest skip args []).1, (marshal_loop w i rest skip args []).2) := by
  induction rest with
  | nil => intro i skip args t; simp [marshal_loop]
  | cons a rest ih =>
    intro i skip args t
    rw [marshal_loop, marshal_loop]
    by_cases h : IS_VM_ARG a = true
    · simpa [h] using ih (i + 1) (skip + 1) args t
    · by_cases hr : w.SetByteArrayRegion_throws i = true
      · simp [h, hr]
      · by_cases he : ((SetObjectArrayElement args (i - skip) a).2
            || w.SetObjectArrayElement_throws i) = true
        · simp only [h, hr, he, if_true, if_false, Bool.false_eq_true]
          simp
        · simp only [h, hr, he, if_false, Bool.false_eq_true]
          rw [ih (i + 1) skip _ (t ++ _ ++ _), ih (i + 1) skip _ ([] ++ _ ++ _)]
          simp

theorem entry_args_none (t : List Event) (h : ∀ e ∈ t, e.isEntryCall = false) :
    entry_args t = none := by
  have := entry_args_append t [] h
  simpa [entry_args] using this

/-- The copying loop, whatever the Java VM answers: started on an array whose
first slots are filled and whose other slots can take the arguments left, it
calls no entry point, and it either fills the array with the forwarded
arguments or stops with a status after a fault at some index. -/
theorem marshal_loop_cases (w : World) (rest : List CStr) :
    ∀ (i : Nat) (skip : Int) (filled : List CStr) (r : Nat),
      (i : Int) - skip = filled.length → (forwarded rest).length ≤ r →
      ∃ t2, (∀ e ∈ t2, e.isEntryCall = false) ∧
        (marshal_loop w i rest skip (some (filled.map some ++ List.replicate r none)) []
            = (t2, .inl (some ((filled ++ forwarded rest).map some
                ++ List.replicate (r - (forwarded rest).length) none)))
          ∨ ∃ status, marshal_loop w i rest skip
                (some (filled.map some ++ List.replicate r none)) [] = (t2, .inr status)
              ∧ ∃ j, i ≤ j ∧ j < i + rest.length
                ∧ (w.SetByteArrayRegion_throws j = true
                  ∨ w.SetObjectArrayElement_throws j = true)) := by
  induction rest with
  | nil =>
    intro i skip filled r _ _
    exact ⟨[], by simp, Or.inl (by simp [marshal_loop, forwarded])⟩
  | cons a rest ih =>
    intro i skip filled r hidx hr
    rw [marshal_loop]
    by_cases h : IS_VM_ARG a = true
    · have hf : forwarded (a :: rest) = forwarded rest := by
        simp [forwarded, List.filter_cons, h]
      rw [hf] at hr ⊢
      obtain ⟨t2, hno, hres⟩ := ih (i + 1) (skip + 1) filled r (by push_cast; omega) hr
      refine ⟨t2, hno, ?_⟩
      simp only [h, if_true]
      rcases hres with hres | ⟨status, hres, j, hj1, hj2, hj3⟩
      · exact Or.inl hres
      · exact Or.inr ⟨status, hres, j, by omega, by simp only [List.length_cons]; omega, hj3⟩
    · have hf : forwarded (a :: rest) = a :: forwarded rest := by
        simp [forwarded, List.filter_cons, h]
      rw [hf] at hr ⊢
      simp only [List.length_cons] at hr ⊢
      obtain ⟨r2, rfl⟩ : ∃ r2, r = r2 + 1 := ⟨r - 1, by omega⟩
      simp only [h, if_false, Bool.false_eq_true, List.nil_append]
      by_cases hreg : w.SetByteArrayRegion_throws i = true
      · refine ⟨[.NewByteArray (strlen a), .SetByteArrayRegion (strlen a) a, .ExceptionCheck]
            ++ [.stderr (lit "Error in SetByteArrayRegion:\n"), .ExceptionDescribe], ?_,
          Or.inr ⟨-1, by simp only [hreg, if_true], i, le_refl _, by omega, Or.inl hreg⟩⟩
        intro e he
        simp only [List.mem_append, List.mem_cons, List.mem_singleton, List.not_mem_nil,
          or_false] at he
        rcases he with (rfl | rfl | rfl) | rfl | rfl <;> rfl
      · simp only [hreg, if_false, Bool.false_eq_true, hidx, SetObjectArrayElement_next,
          Bool.false_or]
        by_cases hel : w.SetObjectArrayElement_throws i = true
        · refine ⟨[.NewByteArray (strlen a), .SetByteArrayRegion (strlen a) a, .ExceptionCheck]
              ++ [.SetObjectArrayElement (filled.length : Int) a, .ExceptionCheck]
              ++ [.stderr (lit "Error in SetObjectArrayElement:\n"), .ExceptionDescribe], ?_,
            Or.inr ⟨-1, by simp only [hel, if_true], i, le_refl _, by omega, Or.inr hel⟩⟩
          intro e he
          simp only [List.mem_append, List.mem_cons, List.mem_singleton, List.not_mem_nil,
            or_false] at he
          rcases he with ((rfl | rfl | rfl) | rfl | rfl) | rfl | rfl <;> rfl
        · simp only [hel, if_false, Bool.false_eq_true]
          obtain ⟨t2, hno, hres⟩ := ih (i + 1) skip (filled ++ [a]) r2
            (by push_cast; simp; omega) (by omega)
          rw [marshal_loop_append]
          refine ⟨[.NewByteArray (strlen a), .SetByteArrayRegion (strlen a) a, .ExceptionCheck]
            ++ [.SetObjectArrayElement (filled.length : Int) a, .ExceptionCheck] ++ t2, ?_, ?_⟩
          · intro e he
            simp only [List.mem_append, List.mem_cons, List.mem_singleton, List.not_mem_nil,
              or_false] at he
            rcases he with ((rfl | rfl | rfl) | rfl | rfl) | he
            · rfl
            · rfl
            · rfl
            · rfl
            · rfl
            · exact hno e he
          · rcases hres with hres | ⟨status, hres, j, hj1, hj2, hj3⟩
            · left
              rw [hres]
              simp
            · right
              refine ⟨status, ?_, j, by omega, by omega, hj3⟩
              rw [hres]

theorem lookup_failed_no_call (w : World) (text : String) :
    ∀ e ∈ lookup_failed w text, e.isEntryCall = false := by
  intro e he
  unfold lookup_failed at he
  by_cases h : w.lookup_throws = true
  · simp only [h, if_true, List.mem_append, List.mem_cons, List.mem_singleton,
      List.not_mem_nil, or_false] at he
    rcases he with (rfl | rfl) | rfl <;> rfl
  · simp only [h, if_false, Bool.false_eq_true, List.append_nil, List.mem_cons,
      List.mem_singleton, List.not_mem_nil, or_false] at he
    rcases he with rfl | rfl <;> rfl

/-- The run of `main` from the creation of the Java VM on, whatever the Java
VM answers, when the program name is no `--vm.` flag: either the entry point
is called, with the forwarded arguments in the array, or it is not called at
all and some foreign call failed. -/
theorem main_run_cases (w : World) (prog : CStr) (rest : List CStr)
    (vm_args : JavaVMInitArgs) (t : List Event) (hprog : IS_VM_ARG prog = false) :
    ∃ t2, (∀ e ∈ t2, e.isEntryCall = false) ∧
      ((∃ tail, (main_run w (prog :: rest) vm_args t).trace
            = t ++ t2 ++ Event.CallStaticVoidMethod (some ((forwarded rest).map some))
                (prog :: rest).length (prog :: rest) :: tail)
        ∨ ((main_run w (prog :: rest) vm_args t).trace = t ++ t2
            ∧ (w.createJVM vm_args ≠ 0 ∨ w.FindClass (lit "[B") = false
              ∨ w.FindClass (lit "org/graalvm/launcher/AbstractLanguageLauncher") = false
              ∨ w.GetStaticMethodID = false
              ∨ ∃ j, j < rest.length ∧ (w.SetByteArrayRegion_throws j = true
                  ∨ w.SetObjectArrayElement_throws j = true)))) := by
  unfold main_run
  by_cases h1 : w.createJVM vm_args = 0
  swap
  · refine ⟨[.createJVM vm_args] ++ [.stderr (lit "Creation of the JVM failed.\n")], ?_,
      Or.inr ⟨by simp [h1], Or.inl h1⟩⟩
    intro e he
    simp only [List.mem_append, List.mem_singleton] at he
    rcases he with rfl | rfl <;> rfl
  by_cases h2 : w.FindClass (lit "[B") = true
  swap
  · refine ⟨[.createJVM vm_args] ++ [.FindClass (lit "[B")]
        ++ lookup_failed w "Byte array class not found.\n", ?_,
      Or.inr ⟨by simp [h1, h2], Or.inr (Or.inl (by simpa using h2))⟩⟩
    intro e he
    simp only [List.mem_append, List.mem_singleton] at he
    rcases he with (rfl | rfl) | he
    · rfl
    · rfl
    · exact lookup_failed_no_call _ _ e he
  by_cases h3 : w.FindClass (lit "org/graalvm/launcher/AbstractLanguageLauncher") = true
  swap
  · refine ⟨[.createJVM vm_args] ++ [.FindClass (lit "[B")]
        ++ [.FindClass (lit "org/graalvm/launcher/AbstractLanguageLauncher")]
        ++ lookup_failed w "Launcher class not found.\n", ?_,
      Or.inr ⟨by simp [h1, h2, h3], Or.inr (Or.inr (Or.inl (by simpa using h3)))⟩⟩
    intro e he
    simp only [List.mem_append, List.mem_singleton] at he
    rcases he with ((rfl | rfl) | rfl) | he
    · rfl
    · rfl
    · rfl
    · exact lookup_failed_no_call _ _ e he
  by_cases h4 : w.GetStaticMethodID = true
  swap
  · refine ⟨[.createJVM vm_args] ++ [.FindClass (lit "[B")]
        ++ [.FindClass (lit "org/graalvm/launcher/AbstractLanguageLauncher")]
        ++ [.GetStaticMethodID (lit "runLauncher") (lit "([[BIJ)V")]
        ++ lookup_failed w "Launcher entry point not found.\n", ?_,
      Or.inr ⟨by simp [h1, h2, h3, h4],
        Or.inr (Or.inr (Or.inr (Or.inl (by simpa using h4))))⟩⟩
    intro e he
    simp only [List.mem_append, List.mem_singleton] at he
    rcases he with (((rfl | rfl) | rfl) | rfl) | he
    · rfl
    · rfl
    · rfl
    · rfl
    · exact lookup_failed_no_call _ _ e he
  have hskip : skip_loop (prog :: rest) 0 = (rest.countP IS_VM_ARG : Nat) := by
    rw [skip_loop_eq]; simp [List.countP_cons, hprog]
  have hlen := forwarded_length rest
  have hnew : NewObjectArray (((prog :: rest).length : Int) - 1 - skip_loop (prog :: rest) 0)
      = some (List.replicate (forwarded rest).length none) := by
    rw [hskip]
    have : (((prog :: rest).length : Int) - 1 - (rest.countP IS_VM_ARG : Nat))
        = ((forwarded rest).length : Nat) := by
      simp only [List.length_cons]; push_cast; omega
    rw [this]
    simp [NewObjectArray]
  obtain ⟨t2, hno, hres⟩ := marshal_loop_cases w rest 0 0 [] (forwarded rest).length
    (by simp) (le_refl _)
  simp only [List.nil_append, Nat.sub_self, List.replicate_zero, List.append_nil,
    List.map_nil, Nat.zero_add] at hres
  simp only [h1, h2, h3, h4, ne_eq, not_true_eq_false, if_false, Bool.not_true,
    Bool.false_eq_true, List.tail_cons, hnew]
  rw [marshal_loop_append]
  have hpre : ∀ e ∈ [Event.createJVM vm_args] ++ [Event.FindClass (lit "[B")]
      ++ [Event.FindClass (lit "org/graalvm/launcher/AbstractLanguageLauncher")]
      ++ [Event.GetStaticMethodID (lit "runLauncher") (lit "([[BIJ)V")]
      ++ [Event.NewObjectArray (((prog :: rest).length : Int) - 1 - skip_loop (prog :: rest) 0)]
      ++ t2, e.isEntryCall = false := by
    intro e he
    simp only [List.mem_append, List.mem_singleton] at he
    rcases he with ((((rfl | rfl) | rfl) | rfl) | rfl) | he
    · rfl
    · rfl
    · rfl
    · rfl
    · rfl
    · exact hno e he
  refine ⟨_, hpre, ?_⟩
  rcases hres with hres | ⟨status, hres, j, _, hj2, hj3⟩
  · left
    rw [hres]
    simp only [Option.isNone_some, Bool.false_or]
    by_cases h5 : w.CallStaticVoidMethod_throws = true
    · exact ⟨[.ExceptionCheck, .ExceptionDescribe], by simp [h5]⟩
    · exact ⟨[.ExceptionCheck], by simp [h5]⟩
  · right
    rw [hres]
    exact ⟨by simp, Or.inr (Or.inr (Or.inr (Or.inr ⟨j, by omega, hj3⟩)))⟩

theorem entry_args_call (t t2 tail : List Event) (args : JArray) (n : Nat) (v : List CStr)
    (ht : ∀ e ∈ t, e.isEntryCall = false) (ht2 : ∀ e ∈ t2, e.isEntryCall = false) :
    entry_args (t ++ t2 ++ Event.CallStaticVoidMethod args n v :: tail) = some args := by
  rw [List.append_assoc, entry_args_append t _ ht, entry_args_append t2 _ ht2]
  rfl

/-! ## Lemmas for the concrete runs and the last option -/

theorem demo_world_reaches (uninit : Nat → Nat → Byte) (argv : List CStr)
    (h : lit "--native" ∉ argv) :
    Reaches demo_cfg (demo_world uninit) argv (spec_vm_args demo_cfg argv (lit "/d") uninit) where
  loads := by simp only [demo_world]; decide
  resolves := rfl
  parsed := parse_vm_options_returns demo_cfg argv (lit "/d") uninit h (Or.inl (by decide))
  created := rfl
  byte_array_class := by simp only [demo_world]; decide
  launcher_class := by simp only [demo_world]; decide
  method := rfl
  region := fun _ _ => rfl
  element := fun _ _ => rfl

theorem main_trace_no_call_of_load (cfg : Config) (w : World) (argv : List CStr)
    (h : w.dlopen (spec_liblang_path cfg w.exe_directory) = false
      ∨ w.dlsym (spec_liblang_path cfg w.exe_directory) = false) :
    entry_args (main cfg w argv).trace = none := by
  unfold main
  simp only [loadliblang_eq]
  generalize spec_liblang_path cfg w.exe_directory = p at h ⊢
  by_cases h1 : w.dlopen p = true
  · have h2 : w.dlsym p = false := by
      rcases h with h | h
      · simp [h1] at h
      · exact h
    simp [h1, h2, entry_args]
  · simp [h1, entry_args]

/-- C1, refuted on the code: for `launcher --vm.X=Y`, when `malloc` hands out
a block whose second byte is not NUL, `strcat` starts after that byte and writes
past the end of the block of `strlen(payload)+2` bytes, so the option is not
`-X=Y` (its slot is `overrun`, the string read there is undefined); on a zeroed
block the option is exactly `-X=Y`. -/
theorem parse_vm_options_stale_block :
    parse_vm_options demo_cfg [lit "launcher", lit "--vm.X=Y"] (lit "/d") stale_heap
        = .ret ⟨3, [.string (lit "-Dorg.graalvm.launcher.class=com.oracle.Main"),
            .overrun, .string (lit "-Djava.class.path=/d/a.jar:/d/b.jar")]⟩
      ∧ new_option (stale_heap 1) (lit "--vm.X=Y") ≠ some (lit "-X=Y")
      ∧ parse_vm_options demo_cfg [lit "launcher", lit "--vm.X=Y"] (lit "/d") clean_heap
        = .ret ⟨3, [.string (lit "-Dorg.graalvm.launcher.class=com.oracle.Main"),
            .string (lit "-X=Y"), .string (lit "-Djava.class.path=/d/a.jar:/d/b.jar")]⟩ := by
  refine ⟨by decide, by decide, by decide⟩

/-- C3: for every build, world and argument vector whose program name is no
`--vm.` flag, whenever `main` calls the entry point the array it passes holds
exactly the arguments after the program name that do not start with `--vm.`,
in their order, in slots `0..k-1`, none of them empty; and `main` does call the
entry point whenever the run reaches it. -/
theorem main_forwards_program_arguments (cfg : Config) (w : World) (prog : CStr)
    (rest : List CStr) (hprog : IS_VM_ARG prog = false) :
    (∀ args, entry_args (main cfg w (prog :: rest)).trace = some args →
        args = some ((rest.filter fun a => !IS_VM_ARG a).map some))
      ∧ ∀ vm_args, Reaches cfg w (prog :: rest) vm_args →
        entry_args (main cfg w (prog :: rest)).trace
          = some (some ((rest.filter fun a => !IS_VM_ARG a).map some)) := by
  constructor
  · intro args hargs
    by_cases hload : w.dlopen (spec_liblang_path cfg w.exe_directory) = true
        ∧ w.dlsym (spec_liblang_path cfg w.exe_directory) = true
    · unfold main at hargs
      simp only [loadliblang_eq, hload.1, hload.2, if_true] at hargs
      cases hparse : parse_vm_options cfg (prog :: rest) w.exe_directory w.uninit with
      | exit status out => rw [hparse] at hargs; simp [entry_args] at hargs
      | undefined => rw [hparse] at hargs; simp [entry_args] at hargs
      | ret vm_args =>
        rw [hparse] at hargs
        simp only at hargs
        obtain ⟨t2, hno, hres⟩ := main_run_cases w prog rest vm_args
          [.dlopen (spec_liblang_path cfg w.exe_directory), .dlsym (lit "JNI_CreateJavaVM")] hprog
        have ht : ∀ e ∈ [Event.dlopen (spec_liblang_path cfg w.exe_directory),
            Event.dlsym (lit "JNI_CreateJavaVM")], e.isEntryCall = false := by
          intro e he
          simp only [List.mem_cons, List.mem_singleton, List.not_mem_nil, or_false] at he
          rcases he with rfl | rfl <;> rfl
        rcases hres with ⟨tail, htr⟩ | ⟨htr, _⟩
        · rw [htr, entry_args_call _ _ _ _ _ _ ht hno] at hargs
          simp only [Option.some.injEq] at hargs
          rw [← hargs]
          rfl
        · rw [htr, entry_args_append _ _ ht, entry_args_none _ hno] at hargs
          simp at hargs
    · have hnone := main_trace_no_call_of_load cfg w (prog :: rest) (by
        by_cases h1 : w.dlopen (spec_liblang_path cfg w.exe_directory) = true
        · right
          by_contra h2
          exact hload ⟨h1, by simpa using h2⟩
        · left
          simpa using h1)
      rw [hnone] at hargs
      simp at hargs
  · intro vm_args hreach
    unfold main
    simp only [loadliblang_eq, hreach.loads, hreach.resolves, if_true, hreach.parsed]
    obtain ⟨t2, hno, hres⟩ := main_run_cases w prog rest vm_args
      [.dlopen (spec_liblang_path cfg w.exe_directory), .dlsym (lit "JNI_CreateJavaVM")] hprog
    have ht : ∀ e ∈ [Event.dlopen (spec_liblang_path cfg w.exe_directory),
        Event.dlsym (lit "JNI_CreateJavaVM")], e.isEntryCall = false := by
      intro e he
      simp only [List.mem_cons, List.mem_singleton, List.not_mem_nil, or_false] at he
      rcases he with rfl | rfl <;> rfl
    rcases hres with ⟨tail, htr⟩ | ⟨_, hfail⟩
    · rw [htr, entry_args_call _ _ _ _ _ _ ht hno]
      rfl
    · exfalso
      rcases hfail with h | h | h | h | ⟨j, hj, h⟩
      · exact h hreach.created
      · simp [hreach.byte_array_class] at h
      · simp [hreach.launcher_class] at h
      · simp [hreach.method] at h
      · have h1 := hreach.region j (by simp only [List.length_cons]; omega)
        have h2 := hreach.element j (by simp only [List.length_cons]; omega)
        simp [h1, h2] at h

/-- C3 at the arguments `--vm.a prog1 --vm.cp=p prog2`, on a stale heap: the
array is `[prog1, prog2]`. -/
theorem main_forwards_program_arguments_witness :
    entry_args (main demo_cfg (demo_world stale_heap)
        [lit "launcher", lit "--vm.a", lit "prog1", lit "--vm.cp=p", lit "prog2"]).trace
      = some (some [some (lit "prog1"), some (lit "prog2")]) :=
  (main_forwards_program_arguments demo_cfg (demo_world stale_heap) (lit "launcher")
    [lit "--vm.a", lit "prog1", lit "--vm.cp=p", lit "prog2"] (by decide)).2 _
    (demo_world_reaches stale_heap _ (by decide))

/-- C5: when an argument is exactly `--native`, `parse_vm_options` exits with
status -1 in its first loop, before any allocation, and `main` ends with status
-1 without calling the creation function or any `JNIEnv` function. -/
theorem main_native_exits (cfg : Config) (w : World) (argv : List CStr)
    (h : lit "--native" ∈ argv) :
    count_loop (argv.headD []) argv (2, 0) = .exit (-1) (native_message (argv.headD []))
      ∧ parse_vm_options cfg argv w.exe_directory w.uninit
          = .exit (-1) (native_message (argv.headD []))
      ∧ (main cfg w argv).status = some (-1)
      ∧ ∀ e ∈ (main cfg w argv).trace, e.isJavaCall = false := by
  have hc := count_loop_exit (argv.headD []) argv h (2, 0)
  have hp : parse_vm_options cfg argv w.exe_directory w.uninit
      = .exit (-1) (native_message (argv.headD [])) := by
    unfold parse_vm_options
    rw [hc]
  refine ⟨hc, hp, ?_, ?_⟩
  · unfold main
    simp only [loadliblang_eq, hp]
    by_cases h1 : w.dlopen (spec_liblang_path cfg w.exe_directory) = true
    · by_cases h2 : w.dlsym (spec_liblang_path cfg w.exe_directory) = true
      · simp [h1, h2]
      · simp [h1, h2]
    · simp [h1]
  · unfold main
    simp only [loadliblang_eq, hp]
    by_cases h1 : w.dlopen (spec_liblang_path cfg w.exe_directory) = true
    · by_cases h2 : w.dlsym (spec_liblang_path cfg w.exe_directory) = true
      · simp [h1, h2, Event.isJavaCall]
      · simp [h1, h2, Event.isJavaCall]
    · simp [h1, Event.isJavaCall]

/-- C5 at `launcher --vm.x --native prog1`, every foreign call succeeding. -/
theorem main_native_exits_witness :
    (main demo_cfg (demo_world clean_heap)
        [lit "launcher", lit "--vm.x", lit "--native", lit "prog1"]).status = some (-1)
      ∧ ∀ e ∈ (main demo_cfg (demo_world clean_heap)
          [lit "launcher", lit "--vm.x", lit "--native", lit "prog1"]).trace,
        e.isJavaCall = false :=
  (main_native_exits demo_cfg (demo_world clean_heap)
    [lit "launcher", lit "--vm.x", lit "--native", lit "prog1"] (by decide)).2.2

/-- C6: when the library does not load, or the creation function is not found
in it, `main` writes `Could not load language library.` to the standard error
and returns -1; its only foreign calls are `dlopen` and, after a successful
load, `dlsym`: the arguments are not parsed, the creation function is not
called. -/
theorem main_library_not_loaded (cfg : Config) (w : World) (argv : List CStr)
    (h : w.dlopen (spec_liblang_path cfg w.exe_directory) = false
      ∨ w.dlsym (spec_liblang_path cfg w.exe_directory) = false) :
    main cfg w argv
      = ⟨[Event.dlopen (spec_liblang_path cfg w.exe_directory)]
          ++ (if w.dlopen (spec_liblang_path cfg w.exe_directory)
              then [Event.dlsym (lit "JNI_CreateJavaVM")] else [])
          ++ [Event.stderr (lit "Could not load language library.\n")], some (-1)⟩ := by
  unfold main
  simp only [loadliblang_eq]
  generalize spec_liblang_path cfg w.exe_directory = p at h ⊢
  by_cases h1 : w.dlopen p = true
  · have h2 : w.dlsym p = false := by
      rcases h with h | h
      · simp [h1] at h
      · exact h
    simp [h1, h2]
  · simp [h1]

/-- C6 in a world without the library, for `launcher --vm.x prog1`. -/
theorem main_library_not_loaded_witness :
    main demo_cfg { demo_world stale_heap with dlopen := fun _ => false }
        [lit "launcher", lit "--vm.x", lit "prog1"]
      = ⟨[Event.dlopen (lit "/d/lib/liblang.so"),
          Event.stderr (lit "Could not load language library.\n")], some (-1)⟩ :=
  main_library_not_loaded demo_cfg { demo_world stale_heap with dlopen := fun _ => false }
    [lit "launcher", lit "--vm.x", lit "prog1"] (Or.inl rfl)

/-- C7, refuted on the code: when `argv[0]` itself begins with `--vm.`, as in
`--vm.Da=b hello`, the counting loop counts it and the array is created with
length `2 - 1 - 1 = 0`, while the copying loop stores `hello` at index 0: the
store is outside the array and `main` returns -1 after
`Error in SetObjectArrayElement:`. -/
theorem main_array_too_short :
    main demo_cfg (demo_world clean_heap) [lit "--vm.Da=b", lit "hello"]
      = ⟨[Event.dlopen (lit "/d/lib/liblang.so"), Event.dlsym (lit "JNI_CreateJavaVM"),
          Event.createJVM ⟨3, [.string (lit "-Dorg.graalvm.launcher.class=com.oracle.Main"),
            .string (lit "-Da=b"), .string (lit "-Djava.class.path=/d/a.jar:/d/b.jar")]⟩,
          Event.FindClass (lit "[B"),
          Event.FindClass (lit "org/graalvm/launcher/AbstractLanguageLauncher"),
          Event.GetStaticMethodID (lit "runLauncher") (lit "([[BIJ)V"),
          Event.NewObjectArray 0,
          Event.NewByteArray 5, Event.SetByteArrayRegion 5 (lit "hello"), Event.ExceptionCheck,
          Event.SetObjectArrayElement 0 (lit "hello"), Event.ExceptionCheck,
          Event.stderr (lit "Error in SetObjectArrayElement:\n"), Event.ExceptionDescribe],
        some (-1)⟩ := by
  decide

/-- C9 as stated fails: for the demo build and no classpath flag `cp_size` is
41 while the classpath string and its NUL take 36 bytes. -/
theorem cp_size_not_exact :
    assemble_cp demo_cfg (clean_heap 1) (lit "/d") []
        = some (lit "-Djava.class.path=/d/a.jar:/d/b.jar")
      ∧ cp_size demo_cfg (lit "/d") [] = 41
      ∧ ((lit "-Djava.class.path=/d/a.jar:/d/b.jar").length + 1 : Int) = 36 := by
  decide

/-- C9, amended: with a launcher classpath of `n ≥ 1` entries and `m` user
paths, whatever the block held, the classpath string is written whole into the
block, and `cp_size` is its length, one terminator byte and `2n + 1 + m` bytes
more: the block is never too small and always larger than needed. -/
theorem cp_size_oversized (cfg : Config) (uninit : Nat → Byte) (exe_dir : CStr)
    (user_cp_entries : List CStr) (hne : cfg.LAUNCHER_CLASSPATH ≠ []) :
    ∃ cp, assemble_cp cfg uninit exe_dir user_cp_entries = some cp
      ∧ cp = cp_property
          ++ cfg.CP_SEP_STR.intercalate (entry_paths cfg exe_dir cfg.LAUNCHER_CLASSPATH)
          ++ user_part cfg user_cp_entries
      ∧ cp_size cfg exe_dir user_cp_entries
          = (cp.length : Int) + 1
            + (2 * cfg.LAUNCHER_CLASSPATH.length + 1 + user_cp_entries.length) := by
  refine ⟨_, assemble_cp_eq cfg uninit exe_dir user_cp_entries hne, rfl, ?_⟩
  rw [cp_size_eq cfg exe_dir user_cp_entries hne]
  push_cast
  ring

/-- C9, amended, at the demo build with the user paths `A` and `B`. -/
theorem cp_size_oversized_witness :
    ∃ cp, assemble_cp demo_cfg (stale_heap 3) (lit "/d") [lit "A", lit "B"] = some cp
      ∧ cp_size demo_cfg (lit "/d") [lit "A", lit "B"] = (cp.length : Int) + 1 + (2 * 2 + 1 + 2) := by
  obtain ⟨cp, h1, _, h3⟩ := cp_size_oversized demo_cfg (stale_heap 3) (lit "/d")
    [lit "A", lit "B"] (by decide)
  exact ⟨cp, h1, h3⟩

/-- C10, refuted on the code: the option block for `--vm.X=Y` has
`strlen("X=Y") + 2 = 5` bytes; when it comes with a stale second byte the
string in it after the dash is written is two bytes long, so `strcat` writes
the four bytes of `X=Y` and its NUL at offsets 2 to 5, one byte past the block. -/
theorem option_block_overrun :
    (malloc (stale_heap 1) (strlen ((lit "--vm.X=Y").drop 5) + 2)).length = 5
      ∧ (malloc (stale_heap 1) (strlen ((lit "--vm.X=Y").drop 5) + 2)).write 0 [some '-']
          = some [some '-', some 'Z', none, none, none]
      ∧ Block.strlen [some '-', some 'Z', none, none, none] = some 2
      ∧ 2 + (terminated ((lit "--vm.X=Y").drop 5)).length = 6
      ∧ strcat [some '-', some 'Z', none, none, none] ((lit "--vm.X=Y").drop 5) = none
      ∧ new_option (stale_heap 1) (lit "--vm.X=Y") = none := by
  decide

end Launcher
